import Mathlib

/-!
Verification of the twinny webview chat component (`src/webview/chat.tsx`).

The component keeps the chat UI state (message list, partial completion,
loading / generating / stop flags) and reacts to boundary events from the
extension host.  We embed the state as an explicit record and each handler
as a pure state transformer; side effects on external collaborators
(`saveLastConversation`, `global.vscode.postMessage`) are recorded in
append-only logs inside the state.  `setTimeout` callbacks in the source
(editor focus, a deferred reset of the stop flag) are asynchronous UI
effects outside the synchronous transition each handler performs; they are
not part of the transition functions below.
-/

namespace Twinny

/-- `USER` role constant from `../common/constants`. -/
def USER : String := "user"

/-- `ASSISTANT` role constant from `../common/constants`. -/
def ASSISTANT : String := "assistant"

/-- A chat message (`ChatCompletionMessage` in `../common/types`): role,
content, and an optional opaque id. -/
structure ChatCompletionMessage where
  role : String
  content : String
  id : Option String := none
deriving DecidableEq, Repr

/-- The event names of `EVENT_NAME` that `messageEventHandler` switches on.
The constants module is external to the sources; only distinctness of the
names matters, so they are modelled as an inductive.  `other` stands for
any event name the switch has no case for. -/
inductive EventName where
  | twinnyAddMessage
  | twinnyOnCompletion
  | twinnyOnLoading
  | twinnyNewConversation
  | twinnyStopGeneration
  | other
deriving DecidableEq, Repr

/-- A boundary event received by the webview (`ServerMessage<T>`): a type
tag and optional data. -/
structure ServerMessage where
  type : EventName
  data : Option ChatCompletionMessage := none
deriving DecidableEq, Repr

/-- A mention collected from the editor (`MentionType`): display name and
file path. -/
structure MentionType where
  name : String
  path : String
deriving DecidableEq, Repr

/-- A request posted to the extension host via `global.vscode.postMessage`
(`ClientMessage`); only the requests the modelled handlers post. -/
inductive ClientMessage where
  | chatMessage (data : List ChatCompletionMessage) (meta : List MentionType)
  | stopGeneration
deriving DecidableEq, Repr

/-- Attributes of a tiptap mention node (`innerNode.attrs`): an optional
label and the id (the file path).  A JS-falsy (absent or empty) label is
modelled as what it is in the source: `label ||` falls through on `""`. -/
structure MentionAttrs where
  label : Option String := none
  id : String
deriving DecidableEq, Repr

/-- An inner node of a paragraph in the editor JSON. -/
inductive InnerNode where
  | mention (attrs : Option MentionAttrs)
  | other
deriving DecidableEq, Repr

/-- A top-level node of the editor JSON (`editorRef.current?.getJSON().content`).
`paragraph none` models a paragraph whose `content` is not an array. -/
inductive EditorNode where
  | paragraph (content : Option (List InnerNode))
  | other
deriving DecidableEq, Repr

/-- The chat component state.  React state hooks and refs become record
fields; `saves` logs every `saveLastConversation` call (by the messages it
persists) and `posts` logs every `postMessage` call. -/
structure ChatState where
  isLoading : Bool
  messages : Option (List ChatCompletionMessage)
  completion : Option ChatCompletionMessage
  generating : Bool
  stopFlag : Bool
  activeConversation : Option String
  editorText : String
  editorDoc : List EditorNode
  saves : List (List ChatCompletionMessage)
  posts : List ClientMessage
deriving DecidableEq, Repr

/-- JS `String.prototype.trim`: strip whitespace from both ends (on
`List Char`, structurally recursive so that it evaluates by kernel
reduction). -/
def jsTrimL (s : List Char) : List Char :=
  ((s.dropWhile Char.isWhitespace).reverse.dropWhile Char.isWhitespace).reverse

/-- JS `text.trim()` on `String`s. -/
def jsTrim (s : String) : String :=
  ⟨jsTrimL s.data⟩

/-- JS `id.split("/")` on `List Char`: the `/`-separated segments, never
empty (splitting the empty string yields one empty segment, as in JS). -/
def splitSlash : List Char → List (List Char)
  | [] => [[]]
  | c :: rest =>
      match splitSlash rest with
      | [] => [[]]
      | seg :: segs =>
          if c = '/' then [] :: seg :: segs else (c :: seg) :: segs

/-- JS `id.split("/")` followed by `.pop() || ""`: the last `/`-separated
segment, with JS falsiness collapsing an empty pop result to `""` (which it
already is). -/
def lastSegment (id : String) : String :=
  ⟨(splitSlash id.data).getLastD []⟩

/-- The name computed for a mention in `getMentions`:
`attrs.label || attrs.id.split("/").pop() || ""`. -/
def mentionName (attrs : MentionAttrs) : String :=
  match attrs.label with
  | some l => if l = "" then lastSegment attrs.id else l
  | none => lastSegment attrs.id

/-- `getMentions`: walk the editor JSON, collecting a `MentionType` for
every mention node with attributes inside every paragraph whose content is
an array. -/
def getMentions (doc : List EditorNode) : List MentionType :=
  doc.foldr
    (fun node acc =>
      match node with
      | .paragraph (some inner) =>
          (inner.filterMap fun n =>
            match n with
            | .mention (some attrs) => some ⟨mentionName attrs, attrs.id⟩
            | _ => none) ++ acc
      | _ => acc)
    []

/-- JS `String.prototype.replace` with a string pattern: replace the
leftmost occurrence of `pat` (if any) by `repl`; on `List Char`. -/
def replaceFirstL (pat repl : List Char) : List Char → List Char
  | [] => if pat.isPrefixOf ([] : List Char) then repl else []
  | c :: rest =>
      if pat.isPrefixOf (c :: rest) then repl ++ (c :: rest).drop pat.length
      else c :: replaceFirstL pat repl rest

/-- JS `text.replace(pat, repl)` on `String`s. -/
def jsReplaceFirst (text pat repl : String) : String :=
  ⟨replaceFirstL pat.data repl.data text.data⟩

/-- Whether `pat` occurs as a contiguous sublist of `s`. -/
def occursL (pat : List Char) : List Char → Bool
  | [] => pat.isPrefixOf ([] : List Char)
  | c :: rest => pat.isPrefixOf (c :: rest) || occursL pat rest

/-- `replaceMentionsInText`: fold over the mentions, replacing (the first
occurrence of) each mention's path by `"@" ++ name`. -/
def replaceMentionsInText (text : String) (mentions : List MentionType) : String :=
  mentions.foldl (fun result m => jsReplaceFirst result m.path ("@" ++ m.name)) text

/-- `handleAddMessage`: with absent data, clear completion / loading /
generating and return.  Otherwise update the message list: a truthy id that
is found in the list replaces in place; a truthy id with an undefined list
follows the source's `existingIndex !== -1` branch (`undefined !== -1`)
writing the message at index 0 of an empty copy; otherwise append.  Every
list update is persisted via `saveLastConversation`, then completion and
loading are cleared. -/
def handleAddMessage (st : ChatState) (msg : ServerMessage) : ChatState :=
  match msg.data with
  | none =>
      { st with completion := none, isLoading := false, generating := false }
  | some d =>
      let updated : List ChatCompletionMessage :=
        match d.id with
        | some i =>
            if i = "" then
              -- JS-falsy id: `if (message.data.id)` not taken, append
              st.messages.getD [] ++ [d]
            else
              match st.messages with
              | none =>
                  -- prev undefined: `prev?.findIndex` is undefined, which
                  -- differs from -1, so the replace branch runs at index
                  -- `undefined || 0 = 0` on an empty copy
                  [d]
              | some prev =>
                  match prev.findIdx? (fun m => m.id = some i) with
                  | some idx => prev.set idx d
                  | none => prev ++ [d]
        | none => st.messages.getD [] ++ [d]
      { st with
        messages := some updated
        saves := st.saves ++ [updated]
        completion := none
        isLoading := false }

/-- `handleCompletionMessage`: store the event's data as the partial
completion (scrolling is a UI effect). -/
def handleCompletionMessage (st : ChatState) (msg : ServerMessage) : ChatState :=
  { st with completion := msg.data }

/-- `handleLoadingMessage`: set the loading flag. -/
def handleLoadingMessage (st : ChatState) : ChatState :=
  { st with isLoading := true }

/-- `messageEventHandler`: dispatch a boundary event per its type.  The
`twinnyNewConversation` case empties the message list, clears the partial
completion and the active conversation, and resets the generating and
loading flags; the `twinnyStopGeneration` case clears loading, completion,
the stop flag and the generating flag.  Unhandled types fall through. -/
def messageEventHandler (st : ChatState) (msg : ServerMessage) : ChatState :=
  match msg.type with
  | .twinnyAddMessage => handleAddMessage st msg
  | .twinnyOnCompletion => handleCompletionMessage st msg
  | .twinnyOnLoading => handleLoadingMessage st
  | .twinnyNewConversation =>
      { st with
        messages := some []
        completion := none
        activeConversation := none
        generating := false
        isLoading := false }
  | .twinnyStopGeneration =>
      { st with
        isLoading := false
        completion := none
        stopFlag := false
        generating := false }
  | .other => st

/-- `handleStopGeneration`: post a StopGeneration request to the extension
host. -/
def handleStopGeneration (st : ChatState) : ChatState :=
  { st with posts := st.posts ++ [.stopGeneration] }

/-- `handleDeleteMessage`: no-op on an undefined or empty list and on a
list of exactly two messages; otherwise drop the entries at `index` and
`index + 1` (`slice(0, index)` ++ `slice(index + 2)`) and persist the
result. -/
def handleDeleteMessage (st : ChatState) (index : Nat) : ChatState :=
  match st.messages with
  | none => st
  | some prev =>
      if prev.length = 0 then st
      else if prev.length = 2 then st
      else
        let updatedMessages := prev.take index ++ prev.drop (index + 2)
        { st with
          messages := some updatedMessages
          saves := st.saves ++ [updatedMessages] }

/-- `handleSubmitForm`: read and trim the editor text; return unchanged if
it is empty or a generation is in progress.  Otherwise set the generating
flag, collect mentions, set loading, clear the editor, append one user
message (with mention paths collapsed), persist, and post one chat-message
request. -/
def handleSubmitForm (st : ChatState) : ChatState :=
  let input := jsTrim st.editorText
  if input = "" ∨ st.generating then st
  else
    let mentions := getMentions st.editorDoc
    let updatedMessages :=
      st.messages.getD [] ++ [⟨USER, replaceMentionsInText input mentions, none⟩]
    { st with
      generating := true
      isLoading := true
      editorText := ""
      editorDoc := []
      messages := some updatedMessages
      saves := st.saves ++ [updatedMessages]
      posts := st.posts ++ [.chatMessage updatedMessages mentions] }

/-- Process a sequence of boundary events in order. -/
def processEvents (st : ChatState) (evs : List ServerMessage) : ChatState :=
  evs.foldl messageEventHandler st

/-- Text accumulated by the streaming driver after the first `i` chunks. -/
def accumText (chunks : List String) (i : Nat) : String :=
  String.join (chunks.take i)

/-- The OnCompletion progress event emitted after chunk `i` of a stream: it
carries the whole accumulated text so far, not just the delta. -/
def progressEvent (chunks : List String) (i : Nat) : ServerMessage :=
  ⟨.twinnyOnCompletion, some ⟨ASSISTANT, accumText chunks i, none⟩⟩

/-- Modelled from the spec: the Completion Driver's streaming loop lives in
the extension host and is not among the sources; per the design, the loop
checks the cancellation token before processing each chunk, emits one
OnCompletion progress event per processed chunk carrying the whole
accumulated text, and, once cancellation is observed, suppresses all
further progress emission and closes the lifecycle with exactly one
StopGeneration event; an uncancelled stream instead ends with one
AddMessage event carrying the trimmed accumulated text followed by one
StopGeneration event.  `cancelAt = some k` means cancellation is observed
at the check before chunk `k`. -/
def streamEvents (chunks : List String) (cancelAt : Option Nat) : List ServerMessage :=
  match cancelAt with
  | none =>
      (List.range chunks.length).map (fun i => progressEvent chunks (i + 1))
        ++ [⟨.twinnyAddMessage, some ⟨ASSISTANT, jsTrim (String.join chunks), none⟩⟩,
            ⟨.twinnyStopGeneration, none⟩]
  | some k =>
      (List.range (min k chunks.length)).map (fun i => progressEvent chunks (i + 1))
        ++ [⟨.twinnyStopGeneration, none⟩]

/-- The user message `handleSubmitForm` appends: role `USER`, content the
trimmed editor text with mention paths collapsed. -/
def newUserMessage (st : ChatState) : ChatCompletionMessage :=
  ⟨USER, replaceMentionsInText (jsTrim st.editorText) (getMentions st.editorDoc), none⟩

/-- Whether a posted request is a chat-message request. -/
def isChatMessagePost : ClientMessage → Bool
  | .chatMessage _ _ => true
  | _ => false

/-! ### Concrete fixture states for witnesses -/

/-- A quiescent chat state: nothing loaded, no messages, empty editor. -/
def st0 : ChatState :=
  { isLoading := false, messages := none, completion := none, generating := false,
    stopFlag := false, activeConversation := none, editorText := "",
    editorDoc := [], saves := [], posts := [] }

/-- Attributes of a mention of the file `a/b` with no label. -/
def attrsAB : MentionAttrs := { label := none, id := "a/b" }

/-- An editor document holding one paragraph with one mention of `a/b`. -/
def docAB : List EditorNode :=
  [EditorNode.paragraph (some [InnerNode.mention (some attrsAB)])]

/-- A user message with id `"1"`. -/
def msgU1 : ChatCompletionMessage := ⟨"user", "hi", some "1"⟩

/-- An assistant message reusing id `"1"`. -/
def msgA1 : ChatCompletionMessage := ⟨"assistant", "yo", some "1"⟩

/-- An assistant message without an id. -/
def msgA2 : ChatCompletionMessage := ⟨"assistant", "sup", none⟩

/-- An editor state holding the text `" hi "` and one mention of `a/b`. -/
def stSubmit : ChatState := { st0 with editorText := " hi ", editorDoc := docAB }

/-- An editor state whose text holds the mention path `a/b` twice but whose
document carries a single mention of `a/b`. -/
def stDup : ChatState := { st0 with editorText := "a/b a/b", editorDoc := docAB }

/-- Attributes of a mention of a root-level file `a` with no label: its
computed name equals its path. -/
def attrsA : MentionAttrs := { label := none, id := "a" }

/-! ### Helper lemmas -/

theorem replaceFirstL_of_isPrefixOf {pat s : List Char} (repl : List Char)
    (h : pat.isPrefixOf s = true) :
    replaceFirstL pat repl s = repl ++ s.drop pat.length := by
  cases s with
  | nil =>
      have : pat = [] := by
        cases pat with
        | nil => rfl
        | cons c cs => simp [List.isPrefixOf] at h
      subst this
      simp [replaceFirstL]
  | cons c rest =>
      simp [replaceFirstL, h]

theorem replaceFirstL_of_not_occurs {pat s : List Char} (repl : List Char)
    (h : occursL pat s = false) :
    replaceFirstL pat repl s = s := by
  induction s with
  | nil =>
      simp [occursL] at h
      simp [replaceFirstL, h]
  | cons c rest ih =>
      simp [occursL] at h
      simp [replaceFirstL, h.1, ih h.2]

theorem replaceMentionsInText_of_not_occurs (t : String) (ms : List MentionType)
    (h : ∀ m ∈ ms, occursL m.path.data t.data = false) :
    replaceMentionsInText t ms = t := by
  induction ms with
  | nil => rfl
  | cons m rest ih =>
      have h1 : jsReplaceFirst t m.path ("@" ++ m.name) = t := by
        have := replaceFirstL_of_not_occurs ("@" ++ m.name).data
          (h m (List.mem_cons_self m rest))
        simp only [jsReplaceFirst, this]
      show replaceMentionsInText (jsReplaceFirst t m.path ("@" ++ m.name)) rest = t
      rw [h1]
      exact ih fun m' hm' => h m' (List.mem_cons_of_mem m hm')

theorem replaceFirstL_first_occurrence (pat repl : List Char) :
    ∀ pre suf : List Char,
      (∀ j < pre.length, pat.isPrefixOf ((pre ++ pat ++ suf).drop j) = false) →
      replaceFirstL pat repl (pre ++ pat ++ suf) = pre ++ repl ++ suf := by
  intro pre
  induction pre with
  | nil =>
      intro suf _
      have hp : pat.isPrefixOf (pat ++ suf) = true := by
        simp [List.isPrefixOf_iff_prefix]
      simpa [List.drop_left] using replaceFirstL_of_isPrefixOf repl hp
  | cons c pre' ih =>
      intro suf h
      have h0 : pat.isPrefixOf (c :: (pre' ++ pat ++ suf)) = false := by
        simpa using h 0 (Nat.succ_pos _)
      have h' : ∀ j < pre'.length,
          pat.isPrefixOf ((pre' ++ pat ++ suf).drop j) = false := by
        intro j hj
        simpa using h (j + 1) (Nat.succ_lt_succ hj)
      show replaceFirstL pat repl (c :: (pre' ++ pat ++ suf)) = c :: (pre' ++ repl ++ suf)
      rw [replaceFirstL, if_neg (fun hc => by rw [h0] at hc; cases hc), ih suf h']

theorem processEvents_onCompletion (l : List ServerMessage)
    (h : ∀ e ∈ l, e.type = EventName.twinnyOnCompletion) :
    ∀ st : ChatState, ∃ c, processEvents st l = { st with completion := c } := by
  induction l with
  | nil => intro st; exact ⟨st.completion, rfl⟩
  | cons e rest ih =>
      intro st
      have he : e.type = EventName.twinnyOnCompletion := h e (List.mem_cons_self e rest)
      have step : messageEventHandler st e = { st with completion := e.data } := by
        simp [messageEventHandler, he, handleCompletionMessage]
      obtain ⟨c, hc⟩ := ih (fun e' he' => h e' (List.mem_cons_of_mem e he'))
        { st with completion := e.data }
      exact ⟨c, by simpa [processEvents, step] using hc⟩

theorem processEvents_append_stop (st : ChatState) (l : List ServerMessage)
    (h : ∀ e ∈ l, e.type = EventName.twinnyOnCompletion) :
    processEvents st (l ++ [⟨EventName.twinnyStopGeneration, none⟩])
      = { st with
          completion := none
          isLoading := false
          stopFlag := false
          generating := false } := by
  obtain ⟨c, hc⟩ := processEvents_onCompletion l h st
  have hsplit : processEvents st (l ++ [⟨EventName.twinnyStopGeneration, none⟩])
      = messageEventHandler (processEvents st l)
          ⟨EventName.twinnyStopGeneration, none⟩ := by
    simp [processEvents, List.foldl_append]
  rw [hsplit, hc]
  rfl

/-! ### Claim theorems -/

/-- C2: Processing a StopGeneration boundary event clears the loading flag,
sets the partial completion to null, and resets both the stop flag and the
generating flag, regardless of the data the event carries (hence regardless
of whether the generation ended in success, cancellation, or error); it
never modifies the messages list, nor the persisted history or the posted
requests. -/
theorem stopGeneration_event_frame (st : ChatState) (d : Option ChatCompletionMessage) :
    (messageEventHandler st ⟨.twinnyStopGeneration, d⟩).isLoading = false
      ∧ (messageEventHandler st ⟨.twinnyStopGeneration, d⟩).completion = none
      ∧ (messageEventHandler st ⟨.twinnyStopGeneration, d⟩).stopFlag = false
      ∧ (messageEventHandler st ⟨.twinnyStopGeneration, d⟩).generating = false
      ∧ (messageEventHandler st ⟨.twinnyStopGeneration, d⟩).messages = st.messages
      ∧ (messageEventHandler st ⟨.twinnyStopGeneration, d⟩).saves = st.saves
      ∧ (messageEventHandler st ⟨.twinnyStopGeneration, d⟩).posts = st.posts :=
  ⟨rfl, rfl, rfl, rfl, rfl, rfl, rfl⟩

/-- C4: Processing a NewConversation event unconditionally discards the
live conversation — the messages list becomes empty, the partial completion
becomes null, and the active conversation is cleared — and also resets the
generating and loading flags, while no save of persisted history occurs on
this path (the save log is unchanged). -/
theorem newConversation_event_frame (st : ChatState) (d : Option ChatCompletionMessage) :
    (messageEventHandler st ⟨.twinnyNewConversation, d⟩).messages = some []
      ∧ (messageEventHandler st ⟨.twinnyNewConversation, d⟩).completion = none
      ∧ (messageEventHandler st ⟨.twinnyNewConversation, d⟩).activeConversation = none
      ∧ (messageEventHandler st ⟨.twinnyNewConversation, d⟩).generating = false
      ∧ (messageEventHandler st ⟨.twinnyNewConversation, d⟩).isLoading = false
      ∧ (messageEventHandler st ⟨.twinnyNewConversation, d⟩).saves = st.saves
      ∧ (messageEventHandler st ⟨.twinnyNewConversation, d⟩).posts = st.posts :=
  ⟨rfl, rfl, rfl, rfl, rfl, rfl, rfl⟩

/-- C5: Handling an OnCompletion progress event replaces the partial
completion with the event's message, so processing the same event twice in
a row equals processing it once, and the messages list and the persisted
conversation are untouched; a driver progress event carries the whole
accumulated text of the chunks processed so far, which becomes the stored
partial completion verbatim. -/
theorem onCompletion_event_idempotent (st : ChatState) (d : Option ChatCompletionMessage)
    (chunks : List String) (i : Nat) :
    messageEventHandler (messageEventHandler st ⟨.twinnyOnCompletion, d⟩)
        ⟨.twinnyOnCompletion, d⟩
      = messageEventHandler st ⟨.twinnyOnCompletion, d⟩
      ∧ (messageEventHandler st ⟨.twinnyOnCompletion, d⟩).completion = d
      ∧ (messageEventHandler st ⟨.twinnyOnCompletion, d⟩).messages = st.messages
      ∧ (messageEventHandler st ⟨.twinnyOnCompletion, d⟩).saves = st.saves
      ∧ (messageEventHandler st (progressEvent chunks i)).completion
        = some ⟨ASSISTANT, accumText chunks i, none⟩ :=
  ⟨rfl, rfl, rfl, rfl, rfl⟩

/-- C9: An AddMessage event with absent data leaves the messages list, the
persisted conversation, the posted requests, the stop flag, the editor and
the active conversation unchanged, and only clears the partial completion,
the loading flag, and the generating flag. -/
theorem addMessage_absent_data_frame (st : ChatState) :
    (messageEventHandler st ⟨.twinnyAddMessage, none⟩).completion = none
      ∧ (messageEventHandler st ⟨.twinnyAddMessage, none⟩).isLoading = false
      ∧ (messageEventHandler st ⟨.twinnyAddMessage, none⟩).generating = false
      ∧ (messageEventHandler st ⟨.twinnyAddMessage, none⟩).messages = st.messages
      ∧ (messageEventHandler st ⟨.twinnyAddMessage, none⟩).saves = st.saves
      ∧ (messageEventHandler st ⟨.twinnyAddMessage, none⟩).posts = st.posts
      ∧ (messageEventHandler st ⟨.twinnyAddMessage, none⟩).stopFlag = st.stopFlag
      ∧ (messageEventHandler st ⟨.twinnyAddMessage, none⟩).editorText = st.editorText
      ∧ (messageEventHandler st ⟨.twinnyAddMessage, none⟩).activeConversation
        = st.activeConversation :=
  ⟨rfl, rfl, rfl, rfl, rfl, rfl, rfl, rfl, rfl⟩

/-- C8: For an AddMessage event whose data carries a (truthy) id that
equals the id of some message in the list, `handleAddMessage` replaces that
message in place and the length is unchanged; for data without an id, or
with an id not present, the message is appended and the length grows by
one; in both cases the updated list is persisted and the completion and
loading state are cleared. -/
theorem addMessage_upsert (st : ChatState) (l : List ChatCompletionMessage)
    (d : ChatCompletionMessage) (h : st.messages = some l) :
    (∀ i, d.id = some i → i ≠ "" →
        (∀ idx, l.findIdx? (fun m => m.id = some i) = some idx →
            (messageEventHandler st ⟨.twinnyAddMessage, some d⟩).messages
                = some (l.set idx d)
              ∧ (l.set idx d).length = l.length
              ∧ (messageEventHandler st ⟨.twinnyAddMessage, some d⟩).saves
                = st.saves ++ [l.set idx d])
          ∧ (l.findIdx? (fun m => m.id = some i) = none →
              (messageEventHandler st ⟨.twinnyAddMessage, some d⟩).messages
                  = some (l ++ [d])
                ∧ (l ++ [d]).length = l.length + 1
                ∧ (messageEventHandler st ⟨.twinnyAddMessage, some d⟩).saves
                  = st.saves ++ [l ++ [d]]))
      ∧ (d.id = none →
          (messageEventHandler st ⟨.twinnyAddMessage, some d⟩).messages = some (l ++ [d])
            ∧ (l ++ [d]).length = l.length + 1
            ∧ (messageEventHandler st ⟨.twinnyAddMessage, some d⟩).saves
              = st.saves ++ [l ++ [d]])
      ∧ (messageEventHandler st ⟨.twinnyAddMessage, some d⟩).completion = none
      ∧ (messageEventHandler st ⟨.twinnyAddMessage, some d⟩).isLoading = false := by
  refine ⟨?_, ?_, rfl, rfl⟩
  · intro i hid hne
    constructor
    · intro idx hfind
      simp [messageEventHandler, handleAddMessage, h, hid, hne, hfind]
    · intro hfind
      simp [messageEventHandler, handleAddMessage, h, hid, hne, hfind]
  · intro hid
    simp [messageEventHandler, handleAddMessage, h, hid]

theorem addMessage_upsert_witness :
    (messageEventHandler { st0 with messages := some [msgU1] }
          ⟨.twinnyAddMessage, some msgA1⟩).messages = some [msgA1]
      ∧ (messageEventHandler { st0 with messages := some [msgU1] }
          ⟨.twinnyAddMessage, some msgA2⟩).messages = some [msgU1, msgA2] := by
  constructor
  · have h := ((addMessage_upsert { st0 with messages := some [msgU1] } [msgU1] msgA1
      rfl).1 "1" rfl (by decide)).1 0 (by decide)
    rw [h.1]; decide
  · have h := (addMessage_upsert { st0 with messages := some [msgU1] } [msgU1] msgA2
      rfl).2.1 rfl
    exact h.1

/-- C10: `handleDeleteMessage` is a no-op that leaves the list unchanged
(and saves nothing) when the list is undefined, empty, or has exactly two
messages; otherwise it removes exactly the entries at positions `index` and
`index + 1` (`slice(0, index) ++ slice(index + 2)`) — two entries when
`index + 2 ≤ length`, one when `index` is the last position — and persists
the result. -/
theorem deleteMessage_spec (st : ChatState) (index : Nat) :
    (st.messages = none → handleDeleteMessage st index = st)
      ∧ (st.messages = some [] → handleDeleteMessage st index = st)
      ∧ (∀ l, st.messages = some l → l.length = 2 → handleDeleteMessage st index = st)
      ∧ (∀ l, st.messages = some l → l.length ≠ 0 → l.length ≠ 2 →
          (handleDeleteMessage st index).messages
              = some (l.take index ++ l.drop (index + 2))
            ∧ (handleDeleteMessage st index).saves
              = st.saves ++ [l.take index ++ l.drop (index + 2)]
            ∧ (index + 2 ≤ l.length →
                (l.take index ++ l.drop (index + 2)).length = l.length - 2)
            ∧ (index + 1 = l.length →
                (l.take index ++ l.drop (index + 2)).length = l.length - 1)) := by
  refine ⟨?_, ?_, ?_, ?_⟩
  · intro h; simp [handleDeleteMessage, h]
  · intro h; simp [handleDeleteMessage, h]
  · intro l h h2; simp [handleDeleteMessage, h, h2]
  · intro l h h0 h2
    refine ⟨?_, ?_, ?_, ?_⟩
    · simp [handleDeleteMessage, h, h0, h2]
    · simp [handleDeleteMessage, h, h0, h2]
    · intro hle
      simp only [List.length_append, List.length_take, List.length_drop]
      omega
    · intro hlast
      simp only [List.length_append, List.length_take, List.length_drop]
      omega

theorem deleteMessage_spec_witness :
    (handleDeleteMessage { st0 with messages := some [msgU1, msgA1, msgA2] } 1).messages
        = some [msgU1]
      ∧ handleDeleteMessage st0 0 = st0 := by
  constructor
  · have h := ((deleteMessage_spec { st0 with messages := some [msgU1, msgA1, msgA2] }
      1).2.2.2 [msgU1, msgA1, msgA2] rfl (by decide) (by decide)).1
    rw [h]; decide
  · exact (deleteMessage_spec st0 0).1 rfl

/-- C1: If the editor text trims to the empty string or a generation is
already in progress, `handleSubmitForm` returns the state unchanged (no
chat-message posted, message list untouched); otherwise it sets the
generating flag, appends exactly one user-role message (with mention paths
collapsed), persists the updated list, and posts exactly one chat-message
request — so at most one generation is active per chat instance. -/
theorem submitForm_guard_and_post (st : ChatState) :
    ((jsTrim st.editorText = "" ∨ st.generating = true) → handleSubmitForm st = st)
      ∧ (jsTrim st.editorText ≠ "" → st.generating = false →
          (handleSubmitForm st).generating = true
            ∧ (handleSubmitForm st).isLoading = true
            ∧ (handleSubmitForm st).messages
                = some (st.messages.getD [] ++ [newUserMessage st])
            ∧ (st.messages.getD [] ++ [newUserMessage st]).length
                = (st.messages.getD []).length + 1
            ∧ (newUserMessage st).role = USER
            ∧ (handleSubmitForm st).posts
                = st.posts ++ [ClientMessage.chatMessage
                    (st.messages.getD [] ++ [newUserMessage st])
                    (getMentions st.editorDoc)]
            ∧ (handleSubmitForm st).posts.countP isChatMessagePost
                = st.posts.countP isChatMessagePost + 1
            ∧ (handleSubmitForm st).saves
                = st.saves ++ [st.messages.getD [] ++ [newUserMessage st]]) := by
  constructor
  · intro h
    simp only [handleSubmitForm]
    rw [if_pos h]
  · intro h1 h2
    have hcond : ¬(jsTrim st.editorText = "" ∨ st.generating = true) := by
      simp [h1, h2]
    have heq : handleSubmitForm st
        = { st with
            generating := true
            isLoading := true
            editorText := ""
            editorDoc := []
            messages := some (st.messages.getD [] ++ [newUserMessage st])
            saves := st.saves ++ [st.messages.getD [] ++ [newUserMessage st]]
            posts := st.posts ++ [ClientMessage.chatMessage
              (st.messages.getD [] ++ [newUserMessage st])
              (getMentions st.editorDoc)] } := by
      simp only [handleSubmitForm, newUserMessage]
      rw [if_neg hcond]
    refine ⟨by rw [heq], by rw [heq], by rw [heq], by simp, rfl, by rw [heq], ?_,
      by rw [heq]⟩
    rw [heq]
    simp [List.countP_append, isChatMessagePost]

theorem submitForm_guard_and_post_witness :
    handleSubmitForm { st0 with generating := true, editorText := "go" }
        = { st0 with generating := true, editorText := "go" }
      ∧ (handleSubmitForm stSubmit).messages = some [⟨USER, "hi", none⟩]
      ∧ (handleSubmitForm stSubmit).posts.countP isChatMessagePost = 1 := by
  refine ⟨?_, ?_, ?_⟩
  · exact (submitForm_guard_and_post _).1 (Or.inr rfl)
  · have h := ((submitForm_guard_and_post stSubmit).2 (by decide) rfl).2.2.1
    rw [h]; decide
  · have h := ((submitForm_guard_and_post stSubmit).2 (by decide) rfl).2.2.2.2.2.2.1
    rw [h]; decide

/-- C3: Cancellation ordering, against the spec-modelled streaming driver:
the UI's `handleStopGeneration` posts one StopGeneration request; in the
event stream of a generation cancelled at chunk `k`, the OnCompletion
events are exactly those of the chunks processed before cancellation was
observed, exactly one StopGeneration event occurs and it comes last; and
processing the whole cancelled stream through the webview's
`messageEventHandler` leaves no partial completion, clears the generating
flag, and touches neither the messages list nor the persisted history. -/
theorem cancelled_stream_lifecycle (chunks : List String) (k : Nat) (st : ChatState) :
    (handleStopGeneration st).posts = st.posts ++ [ClientMessage.stopGeneration]
      ∧ (streamEvents chunks (some k)).countP
          (fun e => e.type == EventName.twinnyStopGeneration) = 1
      ∧ (streamEvents chunks (some k)).getLast?
        = some ⟨EventName.twinnyStopGeneration, none⟩
      ∧ (streamEvents chunks (some k)).filter
          (fun e => e.type == EventName.twinnyOnCompletion)
        = (List.range (min k chunks.length)).map (fun i => progressEvent chunks (i + 1))
      ∧ (processEvents st (streamEvents chunks (some k))).completion = none
      ∧ (processEvents st (streamEvents chunks (some k))).generating = false
      ∧ (processEvents st (streamEvents chunks (some k))).messages = st.messages
      ∧ (processEvents st (streamEvents chunks (some k))).saves = st.saves := by
  have hforall : ∀ e ∈ (List.range (min k chunks.length)).map
      (fun i => progressEvent chunks (i + 1)), e.type = EventName.twinnyOnCompletion := by
    intro e he
    obtain ⟨i, _, rfl⟩ := List.mem_map.mp he
    rfl
  have hfin : processEvents st (streamEvents chunks (some k))
      = { st with
          completion := none
          isLoading := false
          stopFlag := false
          generating := false } :=
    processEvents_append_stop st _ hforall
  refine ⟨rfl, ?_, ?_, ?_, ?_, ?_, ?_, ?_⟩
  · show (_ ++ [(⟨EventName.twinnyStopGeneration, none⟩ : ServerMessage)]).countP _ = 1
    rw [List.countP_append]
    rw [List.countP_eq_zero.mpr (by
      intro e he
      obtain ⟨i, _, rfl⟩ := List.mem_map.mp he
      simp [progressEvent])]
    rfl
  · exact List.getLast?_concat _
  · show (_ ++ [(⟨EventName.twinnyStopGeneration, none⟩ : ServerMessage)]).filter _ = _
    rw [List.filter_append]
    rw [List.filter_eq_self.mpr (by
      intro e he
      obtain ⟨i, _, rfl⟩ := List.mem_map.mp he
      simp [progressEvent])]
    simp
  · rw [hfin]
  · rw [hfin]
  · rw [hfin]
  · rw [hfin]

/-- C6 counterexample: `replace` with a string pattern rewrites only the
first occurrence, so with the text `"a/b a/b"` and the single collected
mention of `a/b`, the submitted user message content is `"@b a/b"`: the
second occurrence of the mention path survives uncollapsed, refuting
"every occurrence of a mention path in the visible user message content is
collapsed". -/
theorem mention_path_second_occurrence_survives :
    getMentions docAB = [⟨"b", "a/b"⟩]
      ∧ (handleSubmitForm stDup).messages = some [⟨USER, "@b a/b", none⟩]
      ∧ occursL ("a/b" : String).data ("@b a/b" : String).data = true := by
  decide

/-- C6 (amended): each collected mention has the first occurrence of its
path in the text replaced by `"@"` followed by the mention's name — the
label, falling back to the last path segment when no (truthy) label exists
— while text before and after that first occurrence (including any later
occurrence of the path) is untouched. -/
theorem replaceMentions_first_occurrence (m : MentionType) (pre suf : List Char)
    (h : ∀ j < pre.length,
        m.path.data.isPrefixOf ((pre ++ m.path.data ++ suf).drop j) = false) :
    replaceMentionsInText ⟨pre ++ m.path.data ++ suf⟩ [m]
        = ⟨pre ++ ("@" ++ m.name).data ++ suf⟩
      ∧ (∀ attrs : MentionAttrs, attrs.label = none →
          mentionName attrs = lastSegment attrs.id)
      ∧ (∀ attrs : MentionAttrs, ∀ l, attrs.label = some l → l ≠ "" →
          mentionName attrs = l) := by
  refine ⟨?_, ?_, ?_⟩
  · have hr := replaceFirstL_first_occurrence m.path.data ("@" ++ m.name).data pre suf h
    show (⟨replaceFirstL m.path.data ("@" ++ m.name).data
      (pre ++ m.path.data ++ suf)⟩ : String) = _
    rw [hr]
  · intro attrs ha
    simp [mentionName, ha]
  · intro attrs l ha hl
    simp [mentionName, ha, hl]

theorem replaceMentions_first_occurrence_witness :
    replaceMentionsInText ⟨("x " : String).data ++ ("a/b" : String).data
        ++ (" y a/b" : String).data⟩ [⟨"b", "a/b"⟩]
      = ⟨("x " : String).data ++ ("@" ++ "b" : String).data
        ++ (" y a/b" : String).data⟩ :=
  (replaceMentions_first_occurrence ⟨"b", "a/b"⟩ ("x " : String).data
    (" y a/b" : String).data (by decide)).1

/-- C7 counterexample: the cleanup pass is not idempotent.  For a
root-level file the collected mention's name equals its path (label absent,
last segment of `"a"` is `"a"`), the cleaned text `"@a"` still contains the
path, and a second pass rewrites it again to `"@@a"`. -/
theorem replaceMentions_not_idempotent :
    getMentions [EditorNode.paragraph (some [InnerNode.mention (some attrsA)])]
        = [⟨"a", "a"⟩]
      ∧ replaceMentionsInText "a" [⟨"a", "a"⟩] = "@a"
      ∧ replaceMentionsInText (replaceMentionsInText "a" [⟨"a", "a"⟩]) [⟨"a", "a"⟩]
        = "@@a"
      ∧ replaceMentionsInText (replaceMentionsInText "a" [⟨"a", "a"⟩]) [⟨"a", "a"⟩]
        ≠ replaceMentionsInText "a" [⟨"a", "a"⟩] := by
  decide

/-- C7 (amended): the cleanup pass is idempotent on text whose cleaned form
contains no further occurrence of any mention's path: if no mention path
occurs in `replaceMentionsInText t ms`, re-cleaning it with the same
mention list yields the same text. -/
theorem replaceMentions_idempotent_on_clean (t : String) (ms : List MentionType)
    (h : ∀ m ∈ ms, occursL m.path.data (replaceMentionsInText t ms).data = false) :
    replaceMentionsInText (replaceMentionsInText t ms) ms
      = replaceMentionsInText t ms :=
  replaceMentionsInText_of_not_occurs _ ms h

theorem replaceMentions_idempotent_on_clean_witness :
    replaceMentionsInText (replaceMentionsInText "see a/b" [⟨"b", "a/b"⟩])
        [⟨"b", "a/b"⟩]
      = replaceMentionsInText "see a/b" [⟨"b", "a/b"⟩] :=
  replaceMentions_idempotent_on_clean "see a/b" [⟨"b", "a/b"⟩] (by decide)

end Twinny
